import Mathlib

/-
Verification of the frame-assembly core (src/capturer/engine/mac/pixelformat.rs).

The four assemblers convert an opaque capture sample (pixel buffer + metadata)
into owned frames.  We embed the Rust functions shallowly: platform handles
become explicit structures, machine integers become Nat/Int with explicit
wrapping where the source casts, and each assembler additionally records the
trace of buffer-API events (lock / unlock / geometry reads) it performs, so
that locking discipline and "never reads geometry" claims are statable.
-/

namespace Scap

/-- Model of an IEEE-754 double as consumed by the timestamp extractor:
either a non-finite value or a finite value carried as the exact rational it
denotes.  Arithmetic results are rounded to nearest, ties to even, by `fl64`
below, matching binary64 semantics. -/
inductive FVal where
  | nan
  | posInf
  | negInf
  | finite (q : ℚ)

/-- Truncation toward zero of a rational, the semantics of `f64::trunc`. -/
def ratTrunc (q : ℚ) : ℤ := if 0 ≤ q then ⌊q⌋ else ⌈q⌉

/-- Rounding to the nearest integer, ties to even — the IEEE-754
round-to-nearest-even rule at integer granularity. -/
def roundHalfEven (t : ℚ) : ℤ :=
  if t - ⌊t⌋ < 1 / 2 then ⌊t⌋
  else if 1 / 2 < t - ⌊t⌋ then ⌊t⌋ + 1
  else if ⌊t⌋ % 2 = 0 then ⌊t⌋ else ⌊t⌋ + 1

/-- The binary64 quantum exponent for a value of magnitude `|x|`: spacing of
representable doubles near `x` is `2 ^ qexp x` (53-bit significand, clamped
below at the subnormal quantum `2 ^ (-1074)`). -/
def qexp (x : ℚ) : ℤ := max (Int.log 2 |x| - 52) (-1074)

/-- Round-to-nearest-even binary64 rounding of an exact rational: a nonzero
value is rounded to the nearest multiple of its quantum (ties to even), and
overflows to a signed infinity when the rounded magnitude reaches `2^1024`. -/
def fl64 (x : ℚ) : FVal :=
  if x = 0 then .finite 0
  else if (2 : ℚ) ^ (1024 : ℤ) ≤ |(roundHalfEven (x / 2 ^ qexp x) : ℚ) * 2 ^ qexp x| then
    (if x < 0 then .negInf else .posInf)
  else .finite ((roundHalfEven (x / 2 ^ qexp x) : ℚ) * 2 ^ qexp x)

/-- Multiplication of the seconds value by the constant `1_000_000_000.`:
the binary64 multiply computes the exact product and rounds it to nearest,
ties to even (`fl64`); a positive finite constant, so non-finite classes are
preserved and a finite product can overflow only to the same-signed infinity. -/
def FVal.mulBillion : FVal → FVal
  | .nan => .nan
  | .posInf => .posInf
  | .negInf => .negInf
  | .finite q => fl64 (q * 1000000000)

/-- Semantics of `f64::trunc`: truncate a finite value toward zero, fix non-finite values. -/
def FVal.trunc : FVal → FVal
  | .finite q => .finite ((ratTrunc q : ℤ) : ℚ)
  | .nan => .nan
  | .posInf => .posInf
  | .negInf => .negInf

/-- Rust `as u64` cast out of `f64`: saturating — NaN and negative values map
to `0`, values above `u64::MAX` map to `u64::MAX`. -/
def f64ToU64 : FVal → ℕ
  | .nan => 0
  | .negInf => 0
  | .posInf => 2 ^ 64 - 1
  | .finite q => if q < 0 then 0 else min (ratTrunc q).toNat (2 ^ 64 - 1)

/-- Rust `usize as i32`: keep the low 32 bits, reinterpret as two's complement. -/
def i32cast (n : ℕ) : ℤ :=
  if n % 2 ^ 32 < 2 ^ 31 then ((n % 2 ^ 32 : ℕ) : ℤ) else ((n % 2 ^ 32 : ℕ) : ℤ) - 2 ^ 32

/-- A CVPixelBuffer handle: logical bounds, whole-buffer stride and memory
(packed formats), and per-plane strides and memories (biplanar format).
`mem`/`planeMem` give the byte visible at an offset from the corresponding
base address while the buffer is locked. -/
structure PixelBuffer where
  width : ℕ
  height : ℕ
  bytesPerRow : ℕ
  mem : ℕ → ℕ
  planeStride : ℕ → ℕ
  planeMem : ℕ → ℕ → ℕ

/-- The frame-status entry of a sample attachment dictionary: `readable`
models whether `CFNumberGetValue` succeeds (returns nonzero), `value` the
SInt64 it stores on success. -/
structure FrameStatusEntry where
  readable : Bool
  value : ℤ

/-- One attachment dictionary; `frameStatus = none` models a dictionary with
no entry under the frame-status key (`CFDictionaryGetValue` returns null). -/
structure Attachment where
  frameStatus : Option FrameStatusEntry

/-- A CMSampleBuffer: attachment array (`none` models a null array pointer),
presentation timestamp in seconds, and the carried pixel buffer. -/
structure SampleBuffer where
  attachments : Option (List Attachment)
  seconds : FVal
  buffer : PixelBuffer

/-- The ScreenCaptureKit "complete" frame-status sentinel. -/
def SCFrameStatus_SCFrameStatusComplete : ℤ := 0

/-- Function `get_pts_in_nanoseconds`: `(seconds * 1_000_000_000.).trunc() as u64`. -/
def get_pts_in_nanoseconds (sample_buffer : SampleBuffer) : ℕ :=
  f64ToU64 (FVal.trunc (FVal.mulBillion sample_buffer.seconds))

/-- Structure `YUVFrame` (crate::frame), fields as constructed by `create_yuv_frame`. -/
structure YUVFrame where
  display_time : ℕ
  width : ℤ
  height : ℤ
  luminance_bytes : List ℕ
  luminance_stride : ℤ
  chrominance_bytes : List ℕ
  chrominance_stride : ℤ
deriving DecidableEq

/-- Structure `BGRFrame` (crate::frame). -/
structure BGRFrame where
  display_time : ℕ
  width : ℤ
  height : ℤ
  data : List ℕ
deriving DecidableEq

/-- Structure `BGRAFrame` (crate::frame). -/
structure BGRAFrame where
  display_time : ℕ
  width : ℤ
  height : ℤ
  data : List ℕ
deriving DecidableEq

/-- Structure `RGBFrame` (crate::frame). -/
structure RGBFrame where
  display_time : ℕ
  width : ℤ
  height : ℤ
  data : List ℕ
deriving DecidableEq

/-- Semantics of `slice::from_raw_parts(base, len).to_vec()`: the `len` bytes at offsets
`0..len` from a base address, as an owned buffer. -/
def copyBytes (m : ℕ → ℕ) (len : ℕ) : List ℕ := (List.range len).map m

/-- Modelled from the spec: `pixel_buffer_bounds` (pixel_buffer.rs, not under
src/) — §4.1: "bounds(buffer) -> (width, height) reads logical dimensions
directly from the buffer descriptor (not derived from stride)". -/
def pixel_buffer_bounds (b : PixelBuffer) : ℕ × ℕ := (b.width, b.height)

/-- Modelled from the spec: `sample_buffer_to_pixel_buffer` (pixel_buffer.rs,
not under src/) — §4.6 step 2: "derive pixel buffer handle from the sample". -/
def sample_buffer_to_pixel_buffer (s : SampleBuffer) : PixelBuffer := s.buffer

/-- Modelled from the spec: `get_cropped_data` (crate::frame, not under src/)
— §4.5 stride-aware crop: rows of `stride` pixels (4 bytes each; the caller
passes `bytes_per_row / 4`), keep the first `width*4` bytes of each of
`height` rows, discard trailing padding. -/
def get_cropped_data (data : List ℕ) (stride height width : ℤ) : List ℕ :=
  (List.range height.toNat).flatMap
    (fun i => (data.drop (i * (stride.toNat * 4))).take (width.toNat * 4))

/-- Modelled from the spec: `remove_alpha_channel` (crate::frame, not under
src/) — §4.5: keep bytes (B,G,R) of each 4-byte (B,G,R,A) pixel. -/
def remove_alpha_channel (data : List ℕ) : List ℕ :=
  (List.range (data.length / 4)).flatMap (fun k => (data.drop (4 * k)).take 3)

/-- Modelled from the spec: `convert_bgra_to_rgb` (crate::frame, not under
src/) — §4.5: each output pixel is (input byte 2, byte 1, byte 0). -/
def convert_bgra_to_rgb (data : List ℕ) : List ℕ :=
  (List.range (data.length / 4)).flatMap
    (fun k => [data.getD (4 * k + 2) 0, data.getD (4 * k + 1) 0, data.getD (4 * k) 0])

/-- Buffer-API events an assembler performs, in order: locking, the bounds
read, whole-buffer base/stride reads, per-plane base/stride reads, the
attachment-array inspection, unlocking. -/
inductive Event where
  | lock
  | unlock
  | readBounds
  | readBaseAddress
  | readBytesPerRow
  | readPlaneBase (plane : ℕ)
  | readPlaneStride (plane : ℕ)
  | readAttachments
deriving DecidableEq

/-- Function `create_yuv_frame`, paired with its buffer-API event trace.  The control
flow mirrors the source: completeness gate on the attachment array, then
timestamp, handle derivation, lock, bounds check (early `return None` —
without an unlock — when a dimension is zero), plane reads and copies,
unlock, frame construction. -/
def create_yuv_frame (sample_buffer : SampleBuffer) : Option YUVFrame × List Event :=
  match sample_buffer.attachments with
  | none => (none, [Event.readAttachments])
  | some [] => (none, [Event.readAttachments])
  | some (attachment :: _) =>
    match attachment.frameStatus with
    | none => (none, [Event.readAttachments])
    | some entry =>
      if entry.readable = false then (none, [Event.readAttachments])
      else if entry.value ≠ SCFrameStatus_SCFrameStatusComplete then
        (none, [Event.readAttachments])
      else
        let display_time := get_pts_in_nanoseconds sample_buffer
        let pixel_buffer := sample_buffer_to_pixel_buffer sample_buffer
        let width := (pixel_buffer_bounds pixel_buffer).1
        let height := (pixel_buffer_bounds pixel_buffer).2
        if width = 0 ∨ height = 0 then
          (none, [Event.readAttachments, Event.lock, Event.readBounds])
        else
          let luminance_stride := pixel_buffer.planeStride 0
          let luminance_bytes := copyBytes (pixel_buffer.planeMem 0) (height * luminance_stride)
          let chrominance_stride := pixel_buffer.planeStride 1
          let chrominance_bytes :=
            copyBytes (pixel_buffer.planeMem 1) (height * chrominance_stride / 2)
          (some { display_time := display_time
                  width := i32cast width
                  height := i32cast height
                  luminance_bytes := luminance_bytes
                  luminance_stride := i32cast luminance_stride
                  chrominance_bytes := chrominance_bytes
                  chrominance_stride := i32cast chrominance_stride },
           [Event.readAttachments, Event.lock, Event.readBounds,
            Event.readPlaneBase 0, Event.readPlaneStride 0,
            Event.readPlaneBase 1, Event.readPlaneStride 1, Event.unlock])

/-- Function `create_bgr_frame` with its event trace: lock, bounds check (early
`return None` without unlock on a zero dimension), bulk copy, crop, alpha
removal, unlock. -/
def create_bgr_frame (sample_buffer : SampleBuffer) : Option BGRFrame × List Event :=
  let pixel_buffer := sample_buffer_to_pixel_buffer sample_buffer
  let display_time := get_pts_in_nanoseconds sample_buffer
  let width := (pixel_buffer_bounds pixel_buffer).1
  let height := (pixel_buffer_bounds pixel_buffer).2
  if width = 0 ∨ height = 0 then
    (none, [Event.lock, Event.readBounds])
  else
    let bytes_per_row := pixel_buffer.bytesPerRow
    let data := copyBytes pixel_buffer.mem (bytes_per_row * height)
    let cropped_data :=
      get_cropped_data data (i32cast (bytes_per_row / 4)) (i32cast height) (i32cast width)
    (some { display_time := display_time
            width := i32cast width
            height := i32cast height
            data := remove_alpha_channel cropped_data },
     [Event.lock, Event.readBounds, Event.readBaseAddress, Event.readBytesPerRow, Event.unlock])

/-- Function `create_bgra_frame` with its event trace: lock, bounds check (early
`return None` without unlock on a zero dimension), row-by-row copy of the
first `4*width` bytes of each of `height` rows, unlock. -/
def create_bgra_frame (sample_buffer : SampleBuffer) : Option BGRAFrame × List Event :=
  let pixel_buffer := sample_buffer_to_pixel_buffer sample_buffer
  let display_time := get_pts_in_nanoseconds sample_buffer
  let width := (pixel_buffer_bounds pixel_buffer).1
  let height := (pixel_buffer_bounds pixel_buffer).2
  if width = 0 ∨ height = 0 then
    (none, [Event.lock, Event.readBounds])
  else
    let bytes_per_row := pixel_buffer.bytesPerRow
    let data := (List.range height).flatMap
      (fun i => (List.range (4 * width)).map (fun j => pixel_buffer.mem (i * bytes_per_row + j)))
    (some { display_time := display_time
            width := i32cast width
            height := i32cast height
            data := data },
     [Event.lock, Event.readBounds, Event.readBaseAddress, Event.readBytesPerRow, Event.unlock])

/-- Function `create_rgb_frame` with its event trace: lock, bounds check (early
`return None` without unlock on a zero dimension), bulk copy, crop,
BGRA→RGB reorder, unlock. -/
def create_rgb_frame (sample_buffer : SampleBuffer) : Option RGBFrame × List Event :=
  let pixel_buffer := sample_buffer_to_pixel_buffer sample_buffer
  let display_time := get_pts_in_nanoseconds sample_buffer
  let width := (pixel_buffer_bounds pixel_buffer).1
  let height := (pixel_buffer_bounds pixel_buffer).2
  if width = 0 ∨ height = 0 then
    (none, [Event.lock, Event.readBounds])
  else
    let bytes_per_row := pixel_buffer.bytesPerRow
    let data := copyBytes pixel_buffer.mem (bytes_per_row * height)
    let cropped_data :=
      get_cropped_data data (i32cast (bytes_per_row / 4)) (i32cast height) (i32cast width)
    (some { display_time := display_time
            width := i32cast width
            height := i32cast height
            data := convert_bgra_to_rgb cropped_data },
     [Event.lock, Event.readBounds, Event.readBaseAddress, Event.readBytesPerRow, Event.unlock])

/-! Helper lemmas -/

/-- Casting a value below `2^31` to i32 is the identity. -/
lemma i32cast_of_lt {n : ℕ} (h : n < 2 ^ 31) : i32cast n = (n : ℤ) := by
  unfold i32cast
  rw [Nat.mod_eq_of_lt (lt_trans h (by norm_num))]
  simp only [if_pos h]

/-- Casting a positive value below `2^31` to i32 yields a positive integer. -/
lemma i32cast_pos {n : ℕ} (h0 : n ≠ 0) (h : n < 2 ^ 31) : 0 < i32cast n := by
  rw [i32cast_of_lt h]
  exact_mod_cast Nat.pos_of_ne_zero h0

/-- Truncation of an integer is that integer. -/
lemma ratTrunc_intCast (n : ℤ) : ratTrunc (n : ℚ) = n := by
  unfold ratTrunc
  split <;> simp

/-- Truncation of a nonnegative rational is its floor. -/
lemma ratTrunc_of_nonneg {q : ℚ} (h : 0 ≤ q) : ratTrunc q = ⌊q⌋ := by
  unfold ratTrunc
  simp [h]

/-- Truncation of a negative rational is its ceiling. -/
lemma ratTrunc_of_neg {q : ℚ} (h : q < 0) : ratTrunc q = ⌈q⌉ := by
  unfold ratTrunc
  simp [not_le_of_lt h]

/-- The completeness gate of `create_yuv_frame`, as a Boolean: the attachment
array is non-null and non-empty, the first attachment has a frame-status
entry, the entry reads as an SInt64, and the value is the complete sentinel. -/
def frameStatusGate : Option (List Attachment) → Bool
  | none => false
  | some [] => false
  | some (attachment :: _) =>
    match attachment.frameStatus with
    | none => false
    | some entry => entry.readable && entry.value == SCFrameStatus_SCFrameStatusComplete

/-- The biplanar assembler characterized by the gate and the bounds. -/
lemma create_yuv_frame_eq (s : SampleBuffer) :
    create_yuv_frame s =
      if frameStatusGate s.attachments then
        if s.buffer.width = 0 ∨ s.buffer.height = 0 then
          (none, [Event.readAttachments, Event.lock, Event.readBounds])
        else
          (some { display_time := get_pts_in_nanoseconds s
                  width := i32cast s.buffer.width
                  height := i32cast s.buffer.height
                  luminance_bytes :=
                    copyBytes (s.buffer.planeMem 0) (s.buffer.height * s.buffer.planeStride 0)
                  luminance_stride := i32cast (s.buffer.planeStride 0)
                  chrominance_bytes :=
                    copyBytes (s.buffer.planeMem 1) (s.buffer.height * s.buffer.planeStride 1 / 2)
                  chrominance_stride := i32cast (s.buffer.planeStride 1) },
           [Event.readAttachments, Event.lock, Event.readBounds,
            Event.readPlaneBase 0, Event.readPlaneStride 0,
            Event.readPlaneBase 1, Event.readPlaneStride 1, Event.unlock])
      else (none, [Event.readAttachments]) := by
  rcases s with ⟨att, sec, buf⟩
  rcases att with _ | att
  · rfl
  rcases att with _ | ⟨a, rest⟩
  · rfl
  rcases a with ⟨st⟩
  rcases st with _ | ⟨r, v⟩
  · rfl
  rcases r
  · simp [create_yuv_frame, frameStatusGate]
  by_cases hv : v = SCFrameStatus_SCFrameStatusComplete
  · subst hv
    simp [create_yuv_frame, frameStatusGate, pixel_buffer_bounds,
      sample_buffer_to_pixel_buffer]
  · simp [create_yuv_frame, frameStatusGate, hv, pixel_buffer_bounds,
      sample_buffer_to_pixel_buffer]

/-- Length of a concatenation of `h` equal-length blocks. -/
lemma length_flatMap_range_const {α : Type} (f : ℕ → List α) (k h : ℕ)
    (hf : ∀ i, (f i).length = k) :
    ((List.range h).flatMap f).length = h * k := by
  induction h with
  | zero => simp
  | succ n ih =>
      rw [List.range_succ, List.flatMap_append, List.length_append, ih]
      simp [hf, Nat.succ_mul]

/-- Block `i` of a concatenation of `h` equal-length blocks. -/
lemma drop_take_flatMap_range_const {α : Type} (f : ℕ → List α) (k h i : ℕ)
    (hf : ∀ j, (f j).length = k) (hi : i < h) :
    (((List.range h).flatMap f).drop (i * k)).take k = f i := by
  induction h with
  | zero => omega
  | succ n ih =>
      rw [List.range_succ, List.flatMap_append]
      have hlen : ((List.range n).flatMap f).length = n * k :=
        length_flatMap_range_const f k n hf
      rcases Nat.lt_or_ge i n with hin | hin
      · have hik : i * k ≤ ((List.range n).flatMap f).length := by
          rw [hlen]
          exact Nat.mul_le_mul (le_of_lt hin) (le_refl k)
        rw [List.drop_append_of_le_length hik]
        have hik' : k ≤ (((List.range n).flatMap f).drop (i * k)).length := by
          rw [List.length_drop, hlen]
          have h1 : (i + 1) * k ≤ n * k := Nat.mul_le_mul (Nat.succ_le_of_lt hin) (le_refl k)
          rw [Nat.succ_mul] at h1
          omega
        rw [List.take_append_of_le_length hik']
        exact ih hin
      · have hi' : i = n := by omega
        subst hi'
        have hfm : [i].flatMap f = f i := by simp
        rw [hfm]
        have hdrop : (((List.range i).flatMap f) ++ f i).drop (i * k) = f i := by
          rw [← hlen]
          simpa using @List.drop_append _ ((List.range i).flatMap f) (f i) 0
        rw [hdrop, ← hf i, List.take_length]

/-- The BGR assembler characterized by the bounds. -/
lemma create_bgr_frame_eq (s : SampleBuffer) :
    create_bgr_frame s =
      if s.buffer.width = 0 ∨ s.buffer.height = 0 then
        (none, [Event.lock, Event.readBounds])
      else
        (some { display_time := get_pts_in_nanoseconds s
                width := i32cast s.buffer.width
                height := i32cast s.buffer.height
                data := remove_alpha_channel (get_cropped_data
                  (copyBytes s.buffer.mem (s.buffer.bytesPerRow * s.buffer.height))
                  (i32cast (s.buffer.bytesPerRow / 4)) (i32cast s.buffer.height)
                  (i32cast s.buffer.width)) },
         [Event.lock, Event.readBounds, Event.readBaseAddress, Event.readBytesPerRow,
          Event.unlock]) := by
  unfold create_bgr_frame
  simp [pixel_buffer_bounds, sample_buffer_to_pixel_buffer]

/-- The BGRA assembler characterized by the bounds. -/
lemma create_bgra_frame_eq (s : SampleBuffer) :
    create_bgra_frame s =
      if s.buffer.width = 0 ∨ s.buffer.height = 0 then
        (none, [Event.lock, Event.readBounds])
      else
        (some { display_time := get_pts_in_nanoseconds s
                width := i32cast s.buffer.width
                height := i32cast s.buffer.height
                data := (List.range s.buffer.height).flatMap
                  (fun i => (List.range (4 * s.buffer.width)).map
                    (fun j => s.buffer.mem (i * s.buffer.bytesPerRow + j))) },
         [Event.lock, Event.readBounds, Event.readBaseAddress, Event.readBytesPerRow,
          Event.unlock]) := by
  unfold create_bgra_frame
  simp [pixel_buffer_bounds, sample_buffer_to_pixel_buffer]

/-- The RGB assembler characterized by the bounds. -/
lemma create_rgb_frame_eq (s : SampleBuffer) :
    create_rgb_frame s =
      if s.buffer.width = 0 ∨ s.buffer.height = 0 then
        (none, [Event.lock, Event.readBounds])
      else
        (some { display_time := get_pts_in_nanoseconds s
                width := i32cast s.buffer.width
                height := i32cast s.buffer.height
                data := convert_bgra_to_rgb (get_cropped_data
                  (copyBytes s.buffer.mem (s.buffer.bytesPerRow * s.buffer.height))
                  (i32cast (s.buffer.bytesPerRow / 4)) (i32cast s.buffer.height)
                  (i32cast s.buffer.width)) },
         [Event.lock, Event.readBounds, Event.readBaseAddress, Event.readBytesPerRow,
          Event.unlock]) := by
  unfold create_rgb_frame
  simp [pixel_buffer_bounds, sample_buffer_to_pixel_buffer]

/-- A trivial pixel buffer, used to build concrete samples for the
timestamp claims (the timestamp extractor never reads the buffer). -/
def pbTrivial : PixelBuffer := ⟨0, 0, 0, fun _ => 0, fun _ => 0, fun _ _ => 0⟩

/-- Rounding to nearest introduces an error of at most one half. -/
lemma roundHalfEven_err (t : ℚ) : |(roundHalfEven t : ℚ) - t| ≤ 1 / 2 := by
  have hf := Int.floor_le t
  have hc := Int.lt_floor_add_one t
  unfold roundHalfEven
  split_ifs with h1 h2 h3 <;> rw [abs_le] <;> constructor <;> push_cast <;> linarith

/-- Rounding to nearest preserves nonpositivity. -/
lemma roundHalfEven_nonpos {t : ℚ} (h : t ≤ 0) : roundHalfEven t ≤ 0 := by
  have hf := Int.floor_le t
  have hfn : ⌊t⌋ ≤ 0 := Int.floor_nonpos h
  unfold roundHalfEven
  split_ifs with h1 h2 h3
  · exact hfn
  · have hc1 : (⌊t⌋ : ℚ) < 0 := by linarith
    have hc2 : ⌊t⌋ < 0 := by exact_mod_cast hc1
    omega
  · exact hfn
  · have h2' : t - ⌊t⌋ = 1 / 2 := le_antisymm (not_lt.mp h2) (not_lt.mp h1)
    have hc1 : (⌊t⌋ : ℚ) < 0 := by linarith
    have hc2 : ⌊t⌋ < 0 := by exact_mod_cast hc1
    omega

/-- A value strictly within one half of an integer rounds to that integer. -/
lemma roundHalfEven_eq_of_near (t : ℚ) (m : ℤ) (h : |t - (m : ℚ)| < 1 / 2) :
    roundHalfEven t = m := by
  rw [abs_lt] at h
  obtain ⟨hlo, hhi⟩ := h
  rcases le_or_lt (m : ℚ) t with hmt | hmt
  · have hfl : ⌊t⌋ = m := by
      rw [Int.floor_eq_iff]
      exact ⟨hmt, by push_cast; linarith⟩
    unfold roundHalfEven
    rw [hfl, if_pos (by linarith)]
  · have hfl : ⌊t⌋ = m - 1 := by
      rw [Int.floor_eq_iff]
      constructor <;> push_cast <;> linarith
    unfold roundHalfEven
    rw [hfl, if_neg (by push_cast; linarith), if_pos (by push_cast; linarith)]
    omega

/-- Positivity of powers of two. -/
lemma two_zpow_pos (k : ℤ) : (0 : ℚ) < 2 ^ k := zpow_pos (by norm_num) k

/-- The quantum exponent determined by a dyadic bracket of the magnitude. -/
lemma qexp_eq {x : ℚ} {e : ℤ} (h1 : (2 : ℚ) ^ e ≤ |x|) (h2 : |x| < 2 ^ (e + 1))
    (he : -1022 ≤ e) : qexp x = e - 52 := by
  have hx : (0 : ℚ) < |x| := lt_of_lt_of_le (two_zpow_pos e) h1
  have hge : e ≤ Int.log 2 |x| := by
    rw [← Int.zpow_le_iff_le_log (by norm_num) hx]
    exact_mod_cast h1
  have hlt : Int.log 2 |x| < e + 1 := by
    rw [← Int.lt_zpow_iff_log_lt (by norm_num) hx]
    exact_mod_cast h2
  unfold qexp
  omega

/-- The binary64 rounding error is at most half a quantum. -/
lemma fl64_err (x : ℚ) :
    |(roundHalfEven (x / 2 ^ qexp x) : ℚ) * 2 ^ qexp x - x| ≤ 2 ^ (qexp x - 1) := by
  have h := roundHalfEven_err (x / 2 ^ qexp x)
  have hpos : (0 : ℚ) < 2 ^ qexp x := two_zpow_pos _
  have heq : (roundHalfEven (x / 2 ^ qexp x) : ℚ) * 2 ^ qexp x - x
      = ((roundHalfEven (x / 2 ^ qexp x) : ℚ) - x / 2 ^ qexp x) * 2 ^ qexp x := by
    field_simp
  rw [heq, abs_mul, abs_of_pos hpos]
  calc |(roundHalfEven (x / 2 ^ qexp x) : ℚ) - x / 2 ^ qexp x| * 2 ^ qexp x
      ≤ (1 / 2) * 2 ^ qexp x := mul_le_mul_of_nonneg_right h (le_of_lt hpos)
    _ = 2 ^ (qexp x - 1) := by
        rw [zpow_sub₀ (by norm_num : (2 : ℚ) ≠ 0), zpow_one]
        ring

/-- Rounding a value lying strictly within half a quantum of a representable
target — in the normal range, below the overflow threshold — yields exactly
that target. -/
lemma fl64_eq_of_near (x : ℚ) (e m : ℤ)
    (h1 : (2 : ℚ) ^ e ≤ |x|) (h2 : |x| < 2 ^ (e + 1)) (he : -1022 ≤ e)
    (hnear : |x - (m : ℚ) * 2 ^ (e - 52)| < 2 ^ (e - 53))
    (hov : |(m : ℚ) * 2 ^ (e - 52)| < 2 ^ (1024 : ℤ)) (hx : x ≠ 0) :
    fl64 x = FVal.finite ((m : ℚ) * 2 ^ (e - 52)) := by
  have hq : qexp x = e - 52 := qexp_eq h1 h2 he
  have h2k : (0 : ℚ) < 2 ^ (e - 52) := two_zpow_pos _
  have hr : roundHalfEven (x / 2 ^ (e - 52)) = m := by
    apply roundHalfEven_eq_of_near
    have heq : x / 2 ^ (e - 52) - (m : ℚ) = (x - (m : ℚ) * 2 ^ (e - 52)) / 2 ^ (e - 52) := by
      field_simp
      ring
    rw [heq, abs_div, abs_of_pos h2k, div_lt_iff h2k]
    calc |x - (m : ℚ) * 2 ^ (e - 52)| < 2 ^ (e - 53) := hnear
      _ = 1 / 2 * 2 ^ (e - 52) := by
          rw [show e - 53 = e - 52 - 1 by ring, zpow_sub₀ (by norm_num : (2 : ℚ) ≠ 0), zpow_one]
          ring
  unfold fl64
  rw [if_neg hx, hq, hr, if_neg (not_le.mpr hov)]

/-- Rounding a negative value yields negative infinity or a nonpositive
finite value. -/
lemma fl64_neg_cases {x : ℚ} (hx : x < 0) :
    fl64 x = FVal.negInf ∨ ∃ p : ℚ, fl64 x = FVal.finite p ∧ p ≤ 0 := by
  unfold fl64
  rw [if_neg (ne_of_lt hx)]
  by_cases hov : (2 : ℚ) ^ (1024 : ℤ) ≤ |(roundHalfEven (x / 2 ^ qexp x) : ℚ) * 2 ^ qexp x|
  · rw [if_pos hov, if_pos hx]
    exact Or.inl rfl
  · rw [if_neg hov]
    refine Or.inr ⟨_, rfl, ?_⟩
    have hm : roundHalfEven (x / 2 ^ qexp x) ≤ 0 :=
      roundHalfEven_nonpos (le_of_lt (div_neg_of_neg_of_pos hx (two_zpow_pos _)))
    have hmq : ((roundHalfEven (x / 2 ^ qexp x) : ℤ) : ℚ) ≤ 0 := by exact_mod_cast hm
    nlinarith [two_zpow_pos (qexp x)]

/-- Rounding a value at or above `2^64` yields positive infinity or a finite
value still at or above `2^64`. -/
lemma fl64_big_cases {x : ℚ} (hx : (2 : ℚ) ^ (64 : ℤ) ≤ x) :
    fl64 x = FVal.posInf ∨ ∃ p : ℚ, fl64 x = FVal.finite p ∧ (2 : ℚ) ^ (64 : ℤ) ≤ p := by
  have hx0 : (0 : ℚ) < x := lt_of_lt_of_le (two_zpow_pos _) hx
  have hxne : x ≠ 0 := ne_of_gt hx0
  have habs : |x| = x := abs_of_pos hx0
  have hxabs : (0 : ℚ) < |x| := by rw [habs]; exact hx0
  have he64 : 64 ≤ Int.log 2 |x| := by
    rw [← Int.zpow_le_iff_le_log (by norm_num) hxabs, habs]
    exact_mod_cast hx
  have hq : qexp x = Int.log 2 |x| - 52 := by
    unfold qexp
    omega
  have herr := fl64_err x
  by_cases hov : (2 : ℚ) ^ (1024 : ℤ) ≤ |(roundHalfEven (x / 2 ^ qexp x) : ℚ) * 2 ^ qexp x|
  · left
    unfold fl64
    rw [if_neg hxne, if_pos hov, if_neg (not_lt.mpr (le_of_lt hx0))]
  · right
    refine ⟨(roundHalfEven (x / 2 ^ qexp x) : ℚ) * 2 ^ qexp x, ?_, ?_⟩
    · unfold fl64
      rw [if_neg hxne, if_neg hov]
    · have habs_err := abs_le.mp herr
      have hb1 : x - 2 ^ (qexp x - 1) ≤ (roundHalfEven (x / 2 ^ qexp x) : ℚ) * 2 ^ qexp x := by
        linarith [habs_err.1]
      rcases lt_or_ge 64 (Int.log 2 |x|) with he65 | he64'
      · -- magnitude exponent at least 65: the half-quantum error cannot reach below 2^64
        have hle : (2 : ℚ) ^ Int.log 2 |x| ≤ x := by
          have h : ((2 : ℕ) : ℚ) ^ Int.log 2 |x| ≤ |x| :=
            Int.zpow_log_le_self (show 1 < 2 by norm_num) hxabs
          have h' : (2 : ℚ) ^ Int.log 2 |x| ≤ |x| := by exact_mod_cast h
          exact le_trans h' (le_of_eq habs)
        have hsp : (2 : ℚ) ^ (qexp x - 1) ≤ 2 ^ (Int.log 2 |x| - 1) :=
          zpow_le_zpow_right₀ (by norm_num) (by omega)
        have hhalf : (2 : ℚ) ^ (Int.log 2 |x| - 1) + 2 ^ (64 : ℤ)
            ≤ 2 ^ Int.log 2 |x| := by
          have hs1 : (2 : ℚ) ^ Int.log 2 |x| = 2 ^ (Int.log 2 |x| - 1) * 2 := by
            rw [← zpow_add_one₀ (by norm_num : (2 : ℚ) ≠ 0)]
            congr 1
            omega
          have hs2 : (2 : ℚ) ^ (64 : ℤ) ≤ 2 ^ (Int.log 2 |x| - 1) :=
            zpow_le_zpow_right₀ (by norm_num) (by omega)
          linarith
        linarith
      · -- magnitude exponent exactly 64: count in quanta of 2^12
        have hqx : qexp x = 12 := by omega
        set m : ℤ := roundHalfEven (x / 2 ^ qexp x) with hmdef
        rw [hqx] at hb1 ⊢
        have h11 : ((2 : ℚ) ^ ((12 : ℤ) - 1)) = 2048 := by norm_num
        have h12 : ((2 : ℚ) ^ (12 : ℤ)) = 4096 := by norm_num
        have h64 : ((2 : ℚ) ^ (64 : ℤ)) = 18446744073709551616 := by norm_num
        rw [h11, h12] at hb1
        rw [h12, h64]
        have hx64 : (18446744073709551616 : ℚ) ≤ x := by
          rw [← h64]
          exact hx
        by_contra hc
        push_neg at hc
        have hm52 : (m : ℚ) < 4503599627370496 := by linarith
        have hmint : m ≤ 4503599627370495 := by
          have : m < 4503599627370496 := by exact_mod_cast hm52
          omega
        have hmq : (m : ℚ) ≤ 4503599627370495 := by exact_mod_cast hmint
        linarith


/-- The timestamp extractor on a finite rounded product, reduced to a single
truncation: saturate below at `0` and above at `u64::MAX`. -/
lemma get_pts_eval_finite (s : SampleBuffer) (q p : ℚ) (hs : s.seconds = FVal.finite q)
    (hp : fl64 (q * 1000000000) = FVal.finite p) :
    get_pts_in_nanoseconds s =
      if ratTrunc p < 0 then 0 else min (ratTrunc p).toNat (2 ^ 64 - 1) := by
  simp only [get_pts_in_nanoseconds, hs, FVal.mulBillion, hp, FVal.trunc, f64ToU64,
    ratTrunc_intCast]
  by_cases h : ratTrunc p < 0
  · rw [if_pos (by exact_mod_cast h), if_pos h]
  · rw [if_neg (by exact_mod_cast h), if_neg h]

/-- The timestamp extractor on a product that overflows to negative infinity. -/
lemma get_pts_eval_negInf (s : SampleBuffer) (q : ℚ) (hs : s.seconds = FVal.finite q)
    (hp : fl64 (q * 1000000000) = FVal.negInf) : get_pts_in_nanoseconds s = 0 := by
  simp only [get_pts_in_nanoseconds, hs, FVal.mulBillion, hp, FVal.trunc, f64ToU64]

/-- The timestamp extractor on a product that overflows to positive infinity. -/
lemma get_pts_eval_posInf (s : SampleBuffer) (q : ℚ) (hs : s.seconds = FVal.finite q)
    (hp : fl64 (q * 1000000000) = FVal.posInf) :
    get_pts_in_nanoseconds s = 2 ^ 64 - 1 := by
  simp only [get_pts_in_nanoseconds, hs, FVal.mulBillion, hp, FVal.trunc, f64ToU64]

/-- Truncation toward zero preserves nonpositivity. -/
lemma ratTrunc_nonpos {p : ℚ} (h : p ≤ 0) : ratTrunc p ≤ 0 := by
  unfold ratTrunc
  split_ifs with h0
  · have hp0 : p = 0 := le_antisymm h h0
    rw [hp0]
    simp
  · exact Int.ceil_le.mpr (by exact_mod_cast h)

/-- On an in-range nonnegative rounded product the extractor returns exactly
its truncation toward zero. -/
lemma pts_trunc_nonneg (s : SampleBuffer) (q p : ℚ) (hs : s.seconds = FVal.finite q)
    (hp : fl64 (q * 1000000000) = FVal.finite p) (h0 : 0 ≤ p) (hb : p < 2 ^ 64) :
    (get_pts_in_nanoseconds s : ℤ) = ratTrunc p := by
  have hm : ratTrunc p = ⌊p⌋ := ratTrunc_of_nonneg h0
  have hfl0 : (0 : ℤ) ≤ ⌊p⌋ := Int.floor_nonneg.mpr h0
  have hflb : ⌊p⌋ < 2 ^ 64 := by
    rw [Int.floor_lt]
    push_cast
    exact hb
  rw [get_pts_eval_finite s q p hs hp, if_neg (by omega), hm]
  rw [min_eq_left (by omega)]
  omega

/-- When the exact product truncates to a negative integer — so the product
is at most `-1` and its rounding is nonpositive — the result is `0`. -/
lemma pts_negTrunc (s : SampleBuffer) (q : ℚ) (hs : s.seconds = FVal.finite q)
    (hb : ratTrunc (q * 1000000000) < 0) : get_pts_in_nanoseconds s = 0 := by
  have hx : q * 1000000000 < 0 := by
    by_contra hge
    push_neg at hge
    rw [ratTrunc_of_nonneg hge] at hb
    exact absurd (Int.floor_nonneg.mpr hge) (not_le.mpr hb)
  rcases fl64_neg_cases hx with hni | ⟨p, hp, hple⟩
  · exact get_pts_eval_negInf s q hs hni
  · rw [get_pts_eval_finite s q p hs hp]
    have htr : ratTrunc p ≤ 0 := ratTrunc_nonpos hple
    by_cases h0 : ratTrunc p < 0
    · rw [if_pos h0]
    · rw [if_neg h0]
      have hz : ratTrunc p = 0 := le_antisymm htr (not_lt.mp h0)
      rw [hz]
      simp

/-- Seconds values at or below `-1e-9` have an exact product at most `-1`
and hence yield `0`. -/
lemma pts_le_neg_billionth (s : SampleBuffer) (q : ℚ) (hs : s.seconds = FVal.finite q)
    (hb : q ≤ -(1 / 1000000000)) : get_pts_in_nanoseconds s = 0 := by
  apply pts_negTrunc s q hs
  have h9 : q * 1000000000 ≤ -1 := by nlinarith
  rw [ratTrunc_of_neg (by linarith)]
  have := Int.ceil_le.mpr (show q * 1000000000 ≤ ((-1 : ℤ) : ℚ) by exact_mod_cast h9)
  omega

/-- When the exact product reaches `2^64` the rounded product is positive
infinity or a finite value still at or above `2^64`, and the saturating cast
returns `u64::MAX`. -/
lemma pts_overflow (s : SampleBuffer) (q : ℚ) (hs : s.seconds = FVal.finite q)
    (hb : (2 ^ 64 : ℚ) ≤ q * 1000000000) : get_pts_in_nanoseconds s = 2 ^ 64 - 1 := by
  have hb' : (2 : ℚ) ^ (64 : ℤ) ≤ q * 1000000000 := by
    rw [show ((2 : ℚ) ^ (64 : ℤ)) = 2 ^ 64 by norm_num]
    exact hb
  rcases fl64_big_cases hb' with hpi | ⟨p, hp, hple⟩
  · exact get_pts_eval_posInf s q hs hpi
  · rw [show ((2 : ℚ) ^ (64 : ℤ)) = 2 ^ 64 by norm_num] at hple
    have h0 : (0 : ℚ) ≤ p := le_trans (by norm_num) hple
    have hm : ratTrunc p = ⌊p⌋ := ratTrunc_of_nonneg h0
    have hfl : (2 ^ 64 : ℤ) ≤ ⌊p⌋ := Int.le_floor.mpr (by push_cast; exact hple)
    rw [get_pts_eval_finite s q p hs hp, if_neg (by omega), hm]
    rw [min_eq_right (by omega)]

/-- The binary64 value nearest to the decimal `1.234567891`, namely
`0x1.3c0ca42c8964bp+0`. -/
def q0double : ℚ := 5559999493871179 / 2 ^ 52

/-- The binary64 value nearest to the decimal `-0.0000000005`, namely
`-0x1.12e0be826d695p-31`. -/
def qNegHalfNano : ℚ := -(4835703278458517 / 2 ^ 83)

/-- C5: `get_pts_in_nanoseconds` converts the seconds value to u64
nanoseconds as `trunc(seconds * 1_000_000_000)` — the conversion to integer
truncates the (correctly rounded) binary64 product toward zero rather than
rounding it: whenever the rounded product is a finite nonnegative value below
`2^64` the result is exactly its truncation toward zero; concretely, at the
binary64 values nearest `1.234567891` and `-0.0000000005` (certified here to
lie within half an ulp of those decimals) the results are `1234567891` and
`0` (truncation toward zero), seconds `0` gives `0`, and the function always
returns a value — `0` for a degenerate (NaN) timestamp — with no failure
path. -/
theorem C5_pts_truncation_policy :
    (∀ (s : SampleBuffer) (q p : ℚ), s.seconds = FVal.finite q →
        fl64 (q * 1000000000) = FVal.finite p → 0 ≤ p → p < 2 ^ 64 →
        (get_pts_in_nanoseconds s : ℤ) = ratTrunc p) ∧
    (|q0double - (1.234567891 : ℚ)| ≤ 1 / 2 ^ 53 ∧
      get_pts_in_nanoseconds ⟨none, FVal.finite q0double, pbTrivial⟩ = 1234567891) ∧
    get_pts_in_nanoseconds ⟨none, FVal.finite 0, pbTrivial⟩ = 0 ∧
    (|qNegHalfNano - (-0.0000000005 : ℚ)| ≤ 1 / 2 ^ 84 ∧
      get_pts_in_nanoseconds ⟨none, FVal.finite qNegHalfNano, pbTrivial⟩ = 0) ∧
    get_pts_in_nanoseconds ⟨none, FVal.nan, pbTrivial⟩ = 0 := by
  refine ⟨pts_trunc_nonneg, ⟨?_, ?_⟩, ?_, ⟨?_, ?_⟩, rfl⟩
  · rw [q0double]
    rw [abs_le]
    constructor <;> norm_num
  · have hprod : q0double * 1000000000 = 10859374011467146484375 / 2 ^ 43 := by
      rw [q0double]
      norm_num
    have htgt : ((5178153043492864 : ℤ) : ℚ) * 2 ^ ((30 : ℤ) - 52) = 1234567891 := by
      norm_num
    have hfl : fl64 (q0double * 1000000000) = FVal.finite 1234567891 := by
      rw [hprod, ← htgt]
      apply fl64_eq_of_near (10859374011467146484375 / 2 ^ 43) 30 5178153043492864
      · rw [abs_of_pos (by norm_num)]
        norm_num
      · rw [abs_of_pos (by norm_num)]
        norm_num
      · norm_num
      · rw [htgt]
        rw [show ((2 : ℚ) ^ ((30 : ℤ) - 53)) = 1 / 2 ^ 23 by norm_num]
        rw [abs_of_neg (by norm_num)]
        norm_num
      · rw [htgt]
        rw [abs_of_pos (by norm_num)]
        norm_num
      · norm_num
    have h := pts_trunc_nonneg ⟨none, FVal.finite q0double, pbTrivial⟩ q0double
      1234567891 rfl hfl (by norm_num) (by norm_num)
    rw [show ((1234567891 : ℚ)) = ((1234567891 : ℤ) : ℚ) by norm_num,
      ratTrunc_intCast] at h
    exact_mod_cast h
  · have hfl : fl64 ((0 : ℚ) * 1000000000) = FVal.finite 0 := by
      simp [fl64]
    have h := pts_trunc_nonneg ⟨none, FVal.finite 0, pbTrivial⟩ 0 0 rfl hfl (le_refl 0)
      (by norm_num)
    rw [show ((0 : ℚ)) = ((0 : ℤ) : ℚ) by norm_num, ratTrunc_intCast] at h
    exact_mod_cast h
  · rw [qNegHalfNano]
    rw [abs_le]
    constructor <;> norm_num
  · have hprod : qNegHalfNano * 1000000000 = -(9444732965739291015625 / 2 ^ 74) := by
      rw [qNegHalfNano]
      norm_num
    have htgt : ((-4503599627370496 : ℤ) : ℚ) * 2 ^ ((-1 : ℤ) - 52) = -(1 / 2) := by
      norm_num
    have hfl : fl64 (qNegHalfNano * 1000000000) = FVal.finite (-(1 / 2)) := by
      rw [hprod, ← htgt]
      apply fl64_eq_of_near (-(9444732965739291015625 / 2 ^ 74)) (-1) (-4503599627370496)
      · rw [abs_of_neg (by norm_num)]
        norm_num
      · rw [abs_of_neg (by norm_num)]
        norm_num
      · norm_num
      · rw [htgt]
        rw [show ((2 : ℚ) ^ ((-1 : ℤ) - 53)) = 1 / 2 ^ 54 by norm_num]
        rw [abs_of_neg (by norm_num)]
        norm_num
      · rw [htgt]
        rw [abs_of_neg (by norm_num)]
        norm_num
      · norm_num
    rw [get_pts_eval_finite ⟨none, FVal.finite qNegHalfNano, pbTrivial⟩ qNegHalfNano
      (-(1 / 2)) rfl hfl]
    have hc : ratTrunc (-(1 / 2) : ℚ) = 0 := by
      rw [ratTrunc_of_neg (by norm_num), Int.ceil_eq_iff] <;> norm_num
    rw [hc]
    simp

/-- Witness for C5 at the concrete sample with seconds `0`, whose product
rounds to the finite value `0`. -/
theorem C5_pts_truncation_policy_witness :
    (get_pts_in_nanoseconds ⟨none, FVal.finite 0, pbTrivial⟩ : ℤ) = ratTrunc (0 : ℚ) :=
  C5_pts_truncation_policy.1 ⟨none, FVal.finite 0, pbTrivial⟩ 0 0 rfl
    (by simp [fl64]) (le_refl 0) (pow_pos two_pos 64)

/-- C10: `get_pts_in_nanoseconds` is total, with a saturating `as u64` cast:
whenever the scaled seconds value truncates to a negative integer — in
particular for every seconds value at or below `-1e-9` — the result is
exactly `0`; a NaN seconds value gives `0`; and a product at or above `2^64`
(including a positive-infinite value, the result of an overflowing f64
multiply) gives exactly `u64::MAX = 2^64 - 1`. -/
theorem C10_pts_saturation :
    (∀ (s : SampleBuffer) (q : ℚ), s.seconds = FVal.finite q →
        ratTrunc (q * 1000000000) < 0 → get_pts_in_nanoseconds s = 0) ∧
    (∀ (s : SampleBuffer) (q : ℚ), s.seconds = FVal.finite q →
        q ≤ -(1 / 1000000000) → get_pts_in_nanoseconds s = 0) ∧
    (∀ s : SampleBuffer, s.seconds = FVal.nan → get_pts_in_nanoseconds s = 0) ∧
    (∀ (s : SampleBuffer) (q : ℚ), s.seconds = FVal.finite q →
        (2 ^ 64 : ℚ) ≤ q * 1000000000 → get_pts_in_nanoseconds s = 2 ^ 64 - 1) ∧
    (∀ s : SampleBuffer, s.seconds = FVal.posInf →
        get_pts_in_nanoseconds s = 2 ^ 64 - 1) := by
  refine ⟨pts_negTrunc, pts_le_neg_billionth, ?_, pts_overflow, ?_⟩
  · intro s hs
    simp [get_pts_in_nanoseconds, hs, FVal.mulBillion, FVal.trunc, f64ToU64]
  · intro s hs
    simp [get_pts_in_nanoseconds, hs, FVal.mulBillion, FVal.trunc, f64ToU64]

/-- Witness for C10 at the concrete sample with seconds `-1e-9`. -/
theorem C10_pts_saturation_witness :
    get_pts_in_nanoseconds ⟨none, FVal.finite (-(1 / 1000000000) : ℚ), pbTrivial⟩ = 0 :=
  C10_pts_saturation.2.1 ⟨none, FVal.finite (-(1 / 1000000000) : ℚ), pbTrivial⟩
    (-(1 / 1000000000) : ℚ) rfl (le_refl _)

/-- An attachment list whose first attachment carries a readable
frame-status entry equal to the complete sentinel. -/
def attComplete : List Attachment := [⟨some ⟨true, 0⟩⟩]

/-- A pixel buffer reporting zero width (height 1). -/
def pbZeroW : PixelBuffer := ⟨0, 1, 4, fun _ => 0, fun _ => 1, fun _ _ => 0⟩

/-- A packed-format sample over the zero-width buffer. -/
def sZeroWPacked : SampleBuffer := ⟨none, FVal.finite 0, pbZeroW⟩

/-- A gate-passing biplanar sample over the zero-width buffer. -/
def sZeroWYuv : SampleBuffer := ⟨some attComplete, FVal.finite 0, pbZeroW⟩

/-- C3: `create_yuv_frame` returns no frame when the attachment array is null
or empty, when the first attachment has no frame-status entry, when the
status value cannot be read as a 64-bit integer, or when the status differs
from the complete sentinel; and it proceeds to conversion only when the
completeness gate passes (strict allow-list). -/
theorem C3_yuv_completeness_gate :
    (∀ s : SampleBuffer, s.attachments = none → (create_yuv_frame s).1 = none) ∧
    (∀ s : SampleBuffer, s.attachments = some [] → (create_yuv_frame s).1 = none) ∧
    (∀ (s : SampleBuffer) (a : Attachment) (rest : List Attachment),
        s.attachments = some (a :: rest) → a.frameStatus = none →
        (create_yuv_frame s).1 = none) ∧
    (∀ (s : SampleBuffer) (a : Attachment) (rest : List Attachment) (e : FrameStatusEntry),
        s.attachments = some (a :: rest) → a.frameStatus = some e → e.readable = false →
        (create_yuv_frame s).1 = none) ∧
    (∀ (s : SampleBuffer) (a : Attachment) (rest : List Attachment) (e : FrameStatusEntry),
        s.attachments = some (a :: rest) → a.frameStatus = some e →
        e.value ≠ SCFrameStatus_SCFrameStatusComplete → (create_yuv_frame s).1 = none) ∧
    (∀ s : SampleBuffer, ((create_yuv_frame s).1).isSome = true →
        frameStatusGate s.attachments = true) := by
  refine ⟨?_, ?_, ?_, ?_, ?_, ?_⟩
  · intro s h
    rw [create_yuv_frame_eq]
    simp [frameStatusGate, h]
  · intro s h
    rw [create_yuv_frame_eq]
    simp [frameStatusGate, h]
  · intro s a rest h ha
    rw [create_yuv_frame_eq]
    simp [frameStatusGate, h, ha]
  · intro s a rest e h ha he
    rw [create_yuv_frame_eq]
    simp [frameStatusGate, h, ha, he]
  · intro s a rest e h ha he
    rw [create_yuv_frame_eq]
    simp [frameStatusGate, h, ha, he]
  · intro s h
    by_cases hg : frameStatusGate s.attachments = true
    · exact hg
    · exfalso
      rw [create_yuv_frame_eq] at h
      simp [Bool.not_eq_true] at hg
      simp [hg] at h

/-- Witness for C3 at a concrete sample with a null attachment array. -/
theorem C3_yuv_completeness_gate_witness :
    (create_yuv_frame ⟨none, FVal.nan, pbTrivial⟩).1 = none :=
  C3_yuv_completeness_gate.1 ⟨none, FVal.nan, pbTrivial⟩ rfl

/-- C4: a biplanar sample whose attachment array is absent or empty yields no
frame and performs no buffer-geometry access at all: the trace is exactly the
attachment inspection — the pixel buffer is never locked, bounds are never
read, and no plane base or stride is read. -/
theorem C4_empty_attachments_no_geometry :
    ∀ s : SampleBuffer, (s.attachments = none ∨ s.attachments = some []) →
      (create_yuv_frame s).1 = none ∧
      (create_yuv_frame s).2 = [Event.readAttachments] ∧
      Event.lock ∉ (create_yuv_frame s).2 ∧
      Event.readBounds ∉ (create_yuv_frame s).2 ∧
      (∀ p : ℕ, Event.readPlaneBase p ∉ (create_yuv_frame s).2 ∧
                Event.readPlaneStride p ∉ (create_yuv_frame s).2) := by
  intro s h
  have hg : frameStatusGate s.attachments = false := by
    rcases h with h | h <;> simp [frameStatusGate, h]
  rw [create_yuv_frame_eq]
  simp [hg]

/-- Witness for C4 at a concrete sample with an empty attachment array. -/
theorem C4_empty_attachments_no_geometry_witness :
    (create_yuv_frame ⟨some [], FVal.nan, pbTrivial⟩).1 = none ∧
    (create_yuv_frame ⟨some [], FVal.nan, pbTrivial⟩).2 = [Event.readAttachments] ∧
    Event.lock ∉ (create_yuv_frame ⟨some [], FVal.nan, pbTrivial⟩).2 ∧
    Event.readBounds ∉ (create_yuv_frame ⟨some [], FVal.nan, pbTrivial⟩).2 ∧
    (∀ p : ℕ, Event.readPlaneBase p ∉ (create_yuv_frame ⟨some [], FVal.nan, pbTrivial⟩).2 ∧
              Event.readPlaneStride p ∉ (create_yuv_frame ⟨some [], FVal.nan, pbTrivial⟩).2) :=
  C4_empty_attachments_no_geometry ⟨some [], FVal.nan, pbTrivial⟩ (Or.inr rfl)

/-- C1 (code bug): on the zero-dimension early exit every assembler returns
with the pixel-buffer lock still held — the trace of each assembler on a
zero-width buffer records one lock acquisition and no release, contradicting
the specified release-on-every-path discipline. -/
theorem C1_zero_dim_lock_leak :
    ((create_yuv_frame sZeroWYuv).1 = none ∧
     (create_yuv_frame sZeroWYuv).2.count Event.lock = 1 ∧
     (create_yuv_frame sZeroWYuv).2.count Event.unlock = 0) ∧
    ((create_bgr_frame sZeroWPacked).1 = none ∧
     (create_bgr_frame sZeroWPacked).2.count Event.lock = 1 ∧
     (create_bgr_frame sZeroWPacked).2.count Event.unlock = 0) ∧
    ((create_bgra_frame sZeroWPacked).1 = none ∧
     (create_bgra_frame sZeroWPacked).2.count Event.lock = 1 ∧
     (create_bgra_frame sZeroWPacked).2.count Event.unlock = 0) ∧
    ((create_rgb_frame sZeroWPacked).1 = none ∧
     (create_rgb_frame sZeroWPacked).2.count Event.lock = 1 ∧
     (create_rgb_frame sZeroWPacked).2.count Event.unlock = 0) := by
  decide

/-- Inversion of a successful biplanar assembly: the bounds were nonzero and
every frame field is determined by the locked buffer. -/
lemma create_yuv_frame_some {s : SampleBuffer} {f : YUVFrame}
    (hf : (create_yuv_frame s).1 = some f) :
    ¬(s.buffer.width = 0 ∨ s.buffer.height = 0) ∧
    f.width = i32cast s.buffer.width ∧ f.height = i32cast s.buffer.height ∧
    f.luminance_bytes =
      copyBytes (s.buffer.planeMem 0) (s.buffer.height * s.buffer.planeStride 0) ∧
    f.luminance_stride = i32cast (s.buffer.planeStride 0) ∧
    f.chrominance_bytes =
      copyBytes (s.buffer.planeMem 1) (s.buffer.height * s.buffer.planeStride 1 / 2) ∧
    f.chrominance_stride = i32cast (s.buffer.planeStride 1) := by
  rw [create_yuv_frame_eq] at hf
  by_cases hg : frameStatusGate s.attachments = true
  · rw [if_pos hg] at hf
    by_cases hzd : s.buffer.width = 0 ∨ s.buffer.height = 0
    · rw [if_pos hzd] at hf
      simp at hf
    · rw [if_neg hzd] at hf
      simp only [Option.some.injEq] at hf
      subst hf
      exact ⟨hzd, rfl, rfl, rfl, rfl, rfl, rfl⟩
  · rw [if_neg hg] at hf
    simp at hf

/-- Inversion of a successful BGR assembly. -/
lemma create_bgr_frame_some {s : SampleBuffer} {f : BGRFrame}
    (hf : (create_bgr_frame s).1 = some f) :
    ¬(s.buffer.width = 0 ∨ s.buffer.height = 0) ∧
    f.width = i32cast s.buffer.width ∧ f.height = i32cast s.buffer.height ∧
    f.data = remove_alpha_channel (get_cropped_data
      (copyBytes s.buffer.mem (s.buffer.bytesPerRow * s.buffer.height))
      (i32cast (s.buffer.bytesPerRow / 4)) (i32cast s.buffer.height)
      (i32cast s.buffer.width)) := by
  rw [create_bgr_frame_eq] at hf
  by_cases hzd : s.buffer.width = 0 ∨ s.buffer.height = 0
  · rw [if_pos hzd] at hf
    simp at hf
  · rw [if_neg hzd] at hf
    simp only [Option.some.injEq] at hf
    subst hf
    exact ⟨hzd, rfl, rfl, rfl⟩

/-- Inversion of a successful BGRA assembly. -/
lemma create_bgra_frame_some {s : SampleBuffer} {f : BGRAFrame}
    (hf : (create_bgra_frame s).1 = some f) :
    ¬(s.buffer.width = 0 ∨ s.buffer.height = 0) ∧
    f.width = i32cast s.buffer.width ∧ f.height = i32cast s.buffer.height ∧
    f.data = (List.range s.buffer.height).flatMap
      (fun i => (List.range (4 * s.buffer.width)).map
        (fun j => s.buffer.mem (i * s.buffer.bytesPerRow + j))) := by
  rw [create_bgra_frame_eq] at hf
  by_cases hzd : s.buffer.width = 0 ∨ s.buffer.height = 0
  · rw [if_pos hzd] at hf
    simp at hf
  · rw [if_neg hzd] at hf
    simp only [Option.some.injEq] at hf
    subst hf
    exact ⟨hzd, rfl, rfl, rfl⟩

/-- Inversion of a successful RGB assembly. -/
lemma create_rgb_frame_some {s : SampleBuffer} {f : RGBFrame}
    (hf : (create_rgb_frame s).1 = some f) :
    ¬(s.buffer.width = 0 ∨ s.buffer.height = 0) ∧
    f.width = i32cast s.buffer.width ∧ f.height = i32cast s.buffer.height ∧
    f.data = convert_bgra_to_rgb (get_cropped_data
      (copyBytes s.buffer.mem (s.buffer.bytesPerRow * s.buffer.height))
      (i32cast (s.buffer.bytesPerRow / 4)) (i32cast s.buffer.height)
      (i32cast s.buffer.width)) := by
  rw [create_rgb_frame_eq] at hf
  by_cases hzd : s.buffer.width = 0 ∨ s.buffer.height = 0
  · rw [if_pos hzd] at hf
    simp at hf
  · rw [if_neg hzd] at hf
    simp only [Option.some.injEq] at hf
    subst hf
    exact ⟨hzd, rfl, rfl, rfl⟩

/-- A pixel buffer reporting width `2^31` (all strides zero, height 1): its
logical width does not fit in i32. -/
def pbWide : PixelBuffer := ⟨2 ^ 31, 1, 0, fun _ => 0, fun _ => 0, fun _ _ => 0⟩

/-- A gate-passing biplanar sample over the `2^31`-wide buffer. -/
def sWide : SampleBuffer := ⟨some attComplete, FVal.finite 0, pbWide⟩

/-- Counterexample to C2 as stated: a buffer whose bounds report width
`2^31` produces a frame whose `width` field is the wrapped i32 value
`-2^31`, which is not positive. -/
theorem C2_dims_cx :
    ((create_yuv_frame sWide).1.map (fun f => f.width)) = some (-(2 ^ 31 : ℤ)) ∧
    ¬(0 : ℤ) < -(2 ^ 31 : ℤ) := by
  constructor
  · rfl
  · decide

/-- C2 (amended): whenever the buffer bounds fit in i32 (`width < 2^31` and
`height < 2^31`), every returned frame has `width > 0` and `height > 0`
(for larger bounds the i32 fields wrap); and whenever the bounds report
`width = 0` or `height = 0`, every assembler returns no frame (`none`)
rather than an error. -/
theorem C2_dims_positive :
    (∀ (s : SampleBuffer) (f : YUVFrame), s.buffer.width < 2 ^ 31 →
        s.buffer.height < 2 ^ 31 → (create_yuv_frame s).1 = some f →
        0 < f.width ∧ 0 < f.height) ∧
    (∀ (s : SampleBuffer) (f : BGRFrame), s.buffer.width < 2 ^ 31 →
        s.buffer.height < 2 ^ 31 → (create_bgr_frame s).1 = some f →
        0 < f.width ∧ 0 < f.height) ∧
    (∀ (s : SampleBuffer) (f : BGRAFrame), s.buffer.width < 2 ^ 31 →
        s.buffer.height < 2 ^ 31 → (create_bgra_frame s).1 = some f →
        0 < f.width ∧ 0 < f.height) ∧
    (∀ (s : SampleBuffer) (f : RGBFrame), s.buffer.width < 2 ^ 31 →
        s.buffer.height < 2 ^ 31 → (create_rgb_frame s).1 = some f →
        0 < f.width ∧ 0 < f.height) ∧
    (∀ s : SampleBuffer, s.buffer.width = 0 ∨ s.buffer.height = 0 →
        (create_yuv_frame s).1 = none ∧ (create_bgr_frame s).1 = none ∧
        (create_bgra_frame s).1 = none ∧ (create_rgb_frame s).1 = none) := by
  refine ⟨?_, ?_, ?_, ?_, ?_⟩
  · intro s f hw hh hf
    obtain ⟨hzd, hfw, hfh, -⟩ := create_yuv_frame_some hf
    push_neg at hzd
    rw [hfw, hfh]
    exact ⟨i32cast_pos hzd.1 hw, i32cast_pos hzd.2 hh⟩
  · intro s f hw hh hf
    obtain ⟨hzd, hfw, hfh, -⟩ := create_bgr_frame_some hf
    push_neg at hzd
    rw [hfw, hfh]
    exact ⟨i32cast_pos hzd.1 hw, i32cast_pos hzd.2 hh⟩
  · intro s f hw hh hf
    obtain ⟨hzd, hfw, hfh, -⟩ := create_bgra_frame_some hf
    push_neg at hzd
    rw [hfw, hfh]
    exact ⟨i32cast_pos hzd.1 hw, i32cast_pos hzd.2 hh⟩
  · intro s f hw hh hf
    obtain ⟨hzd, hfw, hfh, -⟩ := create_rgb_frame_some hf
    push_neg at hzd
    rw [hfw, hfh]
    exact ⟨i32cast_pos hzd.1 hw, i32cast_pos hzd.2 hh⟩
  · intro s hzd
    refine ⟨?_, ?_, ?_, ?_⟩
    · rw [create_yuv_frame_eq]
      by_cases hg : frameStatusGate s.attachments = true
      · rw [if_pos hg, if_pos hzd]
      · rw [if_neg hg]
    · rw [create_bgr_frame_eq, if_pos hzd]
    · rw [create_bgra_frame_eq, if_pos hzd]
    · rw [create_rgb_frame_eq, if_pos hzd]

/-- Witness for C2 on a concrete zero-width sample. -/
theorem C2_dims_positive_witness :
    (create_yuv_frame sZeroWPacked).1 = none ∧ (create_bgr_frame sZeroWPacked).1 = none ∧
    (create_bgra_frame sZeroWPacked).1 = none ∧ (create_rgb_frame sZeroWPacked).1 = none :=
  C2_dims_positive.2.2.2.2 sZeroWPacked (Or.inl rfl)

/-- Length of an owned copy. -/
lemma copyBytes_length (m : ℕ → ℕ) (len : ℕ) : (copyBytes m len).length = len := by
  simp [copyBytes]

/-- A pixel buffer with luminance stride 0 and chrominance stride `2^31`
(bounds 1×1): the chrominance stride does not fit in i32. -/
def pbStrideWrap : PixelBuffer :=
  ⟨1, 1, 0, fun _ => 0, fun p => if p = 0 then 0 else 2 ^ 31, fun _ _ => 0⟩

/-- A gate-passing biplanar sample over the stride-`2^31` buffer. -/
def sStrideWrap : SampleBuffer := ⟨some attComplete, FVal.finite 0, pbStrideWrap⟩

/-- Counterexample to C6 as stated: a chrominance stride of `2^31` read from
the locked buffer is stored in the frame as the wrapped i32 value `-2^31`,
not preserved. -/
theorem C6_stride_cx :
    ((create_yuv_frame sStrideWrap).1.map (fun f => f.chrominance_stride)) =
      some (-(2 ^ 31 : ℤ)) ∧
    sStrideWrap.buffer.planeStride 1 = 2 ^ 31 ∧
    -(2 ^ 31 : ℤ) ≠ ((2 ^ 31 : ℕ) : ℤ) := by
  refine ⟨rfl, rfl, by decide⟩

/-- C6 (amended): every `YUVFrame` returned by `create_yuv_frame` has a
luminance buffer of length `height * luminance_stride` and a chrominance
buffer of length `height * chrominance_stride / 2` (half-height subsampling;
neither plane cropped to width); the frame's stride fields hold the per-plane
strides read from the locked buffer cast to i32, which preserves them exactly
whenever they are below `2^31`. -/
theorem C6_yuv_plane_geometry :
    ∀ (s : SampleBuffer) (f : YUVFrame), (create_yuv_frame s).1 = some f →
      f.luminance_bytes.length = s.buffer.height * s.buffer.planeStride 0 ∧
      f.chrominance_bytes.length = s.buffer.height * s.buffer.planeStride 1 / 2 ∧
      f.luminance_stride = i32cast (s.buffer.planeStride 0) ∧
      f.chrominance_stride = i32cast (s.buffer.planeStride 1) ∧
      (s.buffer.planeStride 0 < 2 ^ 31 →
        f.luminance_stride = (s.buffer.planeStride 0 : ℤ)) ∧
      (s.buffer.planeStride 1 < 2 ^ 31 →
        f.chrominance_stride = (s.buffer.planeStride 1 : ℤ)) := by
  intro s f hf
  obtain ⟨-, -, -, hlb, hls, hcb, hcs⟩ := create_yuv_frame_some hf
  refine ⟨?_, ?_, hls, hcs, ?_, ?_⟩
  · rw [hlb, copyBytes_length]
  · rw [hcb, copyBytes_length]
  · intro hlt
    rw [hls, i32cast_of_lt hlt]
  · intro hlt
    rw [hcs, i32cast_of_lt hlt]

/-- A 1×1 pixel buffer with whole-buffer stride 4 and plane strides 2. -/
def pbUnit : PixelBuffer := ⟨1, 1, 4, fun o => o % 256, fun _ => 2, fun p o => p + o⟩

/-- A gate-passing sample over the unit buffer. -/
def sUnit : SampleBuffer := ⟨some attComplete, FVal.finite 0, pbUnit⟩

/-- The YUV frame assembled from the unit sample. -/
def fUnitYuv : YUVFrame := ((create_yuv_frame sUnit).1).getD ⟨0, 0, 0, [], 0, [], 0⟩

/-- Witness for C6 at the unit sample. -/
theorem C6_yuv_plane_geometry_witness :
    fUnitYuv.luminance_bytes.length = sUnit.buffer.height * sUnit.buffer.planeStride 0 :=
  (C6_yuv_plane_geometry sUnit fUnitYuv rfl).1

/-- C7: every `BGRAFrame` returned from a buffer of width `w`, height `h` and
row stride `s ≥ w*4` has data of length exactly `h * w * 4` with no padding,
and for every row `i < h` the bytes at positions `i*w*4 ..< (i+1)*w*4` are
exactly the first `w*4` bytes of source row `i`, read at offset `i*s` in the
locked buffer. -/
theorem C7_bgra_rowwise_crop :
    ∀ (s : SampleBuffer) (f : BGRAFrame), (create_bgra_frame s).1 = some f →
      4 * s.buffer.width ≤ s.buffer.bytesPerRow →
      f.data.length = s.buffer.height * s.buffer.width * 4 ∧
      (∀ i : ℕ, i < s.buffer.height →
        (f.data.drop (i * (s.buffer.width * 4))).take (s.buffer.width * 4) =
          (List.range (s.buffer.width * 4)).map
            (fun j => s.buffer.mem (i * s.buffer.bytesPerRow + j))) := by
  intro s f hf hstride
  obtain ⟨-, -, -, hdata⟩ := create_bgra_frame_some hf
  have hblock : ∀ j : ℕ,
      ((List.range (4 * s.buffer.width)).map
        (fun t => s.buffer.mem (j * s.buffer.bytesPerRow + t))).length =
      4 * s.buffer.width := by
    intro j
    simp
  constructor
  · rw [hdata, length_flatMap_range_const _ (4 * s.buffer.width) _ hblock]
    ring
  · intro i hi
    rw [hdata, show s.buffer.width * 4 = 4 * s.buffer.width from Nat.mul_comm _ _]
    exact drop_take_flatMap_range_const _ (4 * s.buffer.width) _ i hblock hi

/-- The BGRA frame assembled from the unit sample. -/
def fUnitBgra : BGRAFrame := ((create_bgra_frame sUnit).1).getD ⟨0, 0, 0, []⟩

/-- Witness for C7 at the unit sample (width 1, stride 4). -/
theorem C7_bgra_rowwise_crop_witness :
    fUnitBgra.data.length = sUnit.buffer.height * sUnit.buffer.width * 4 :=
  (C7_bgra_rowwise_crop sUnit fUnitBgra rfl (by decide)).1

/-- C8: only the biplanar assembler applies the completeness gate — the three
packed-format assemblers never inspect the sample's attachment metadata
(their traces contain no attachment read), so two samples that differ only in
attachment/status metadata produce identical packed results. -/
theorem C8_packed_ignore_attachments :
    (∀ s1 s2 : SampleBuffer, s1.seconds = s2.seconds → s1.buffer = s2.buffer →
        create_bgr_frame s1 = create_bgr_frame s2 ∧
        create_bgra_frame s1 = create_bgra_frame s2 ∧
        create_rgb_frame s1 = create_rgb_frame s2) ∧
    (∀ s : SampleBuffer, Event.readAttachments ∉ (create_bgr_frame s).2 ∧
        Event.readAttachments ∉ (create_bgra_frame s).2 ∧
        Event.readAttachments ∉ (create_rgb_frame s).2) := by
  constructor
  · rintro ⟨a1, sec1, buf1⟩ ⟨a2, sec2, buf2⟩ hsec hbuf
    simp only at hsec hbuf
    subst hsec
    subst hbuf
    exact ⟨rfl, rfl, rfl⟩
  · intro s
    rw [create_bgr_frame_eq, create_bgra_frame_eq, create_rgb_frame_eq]
    by_cases hzd : s.buffer.width = 0 ∨ s.buffer.height = 0
    · rw [if_pos hzd, if_pos hzd, if_pos hzd]
      refine ⟨?_, ?_, ?_⟩ <;> simp
    · rw [if_neg hzd, if_neg hzd, if_neg hzd]
      refine ⟨?_, ?_, ?_⟩ <;> simp

/-- Witness for C8: two concrete samples over the same buffer, one with a
null attachment array and one with a complete-status attachment. -/
theorem C8_packed_ignore_attachments_witness :
    create_bgr_frame ⟨none, FVal.nan, pbUnit⟩ =
      create_bgr_frame ⟨some attComplete, FVal.nan, pbUnit⟩ ∧
    create_bgra_frame ⟨none, FVal.nan, pbUnit⟩ =
      create_bgra_frame ⟨some attComplete, FVal.nan, pbUnit⟩ ∧
    create_rgb_frame ⟨none, FVal.nan, pbUnit⟩ =
      create_rgb_frame ⟨some attComplete, FVal.nan, pbUnit⟩ :=
  C8_packed_ignore_attachments.1 ⟨none, FVal.nan, pbUnit⟩
    ⟨some attComplete, FVal.nan, pbUnit⟩ rfl rfl

/-- C9: the `width` and `height` fields of every returned frame are the
logical bounds read from the pixel buffer's bounds accessor (cast to i32),
not stride-derived: two samples with identical attachments, timestamps and
logical bounds — but arbitrary strides and memory — yield frames with
identical `width`/`height` fields. -/
theorem C9_dims_from_bounds :
    (∀ (s : SampleBuffer) (f : YUVFrame), (create_yuv_frame s).1 = some f →
        f.width = i32cast (pixel_buffer_bounds s.buffer).1 ∧
        f.height = i32cast (pixel_buffer_bounds s.buffer).2) ∧
    (∀ (s : SampleBuffer) (f : BGRFrame), (create_bgr_frame s).1 = some f →
        f.width = i32cast (pixel_buffer_bounds s.buffer).1 ∧
        f.height = i32cast (pixel_buffer_bounds s.buffer).2) ∧
    (∀ (s : SampleBuffer) (f : BGRAFrame), (create_bgra_frame s).1 = some f →
        f.width = i32cast (pixel_buffer_bounds s.buffer).1 ∧
        f.height = i32cast (pixel_buffer_bounds s.buffer).2) ∧
    (∀ (s : SampleBuffer) (f : RGBFrame), (create_rgb_frame s).1 = some f →
        f.width = i32cast (pixel_buffer_bounds s.buffer).1 ∧
        f.height = i32cast (pixel_buffer_bounds s.buffer).2) ∧
    (∀ s1 s2 : SampleBuffer, s1.attachments = s2.attachments →
        s1.seconds = s2.seconds →
        s1.buffer.width = s2.buffer.width → s1.buffer.height = s2.buffer.height →
        (create_yuv_frame s1).1.map (fun f => (f.width, f.height)) =
          (create_yuv_frame s2).1.map (fun f => (f.width, f.height)) ∧
        (create_bgr_frame s1).1.map (fun f => (f.width, f.height)) =
          (create_bgr_frame s2).1.map (fun f => (f.width, f.height)) ∧
        (create_bgra_frame s1).1.map (fun f => (f.width, f.height)) =
          (create_bgra_frame s2).1.map (fun f => (f.width, f.height)) ∧
        (create_rgb_frame s1).1.map (fun f => (f.width, f.height)) =
          (create_rgb_frame s2).1.map (fun f => (f.width, f.height))) := by
  refine ⟨?_, ?_, ?_, ?_, ?_⟩
  · intro s f hf
    obtain ⟨-, hw, hh, -⟩ := create_yuv_frame_some hf
    exact ⟨hw, hh⟩
  · intro s f hf
    obtain ⟨-, hw, hh, -⟩ := create_bgr_frame_some hf
    exact ⟨hw, hh⟩
  · intro s f hf
    obtain ⟨-, hw, hh, -⟩ := create_bgra_frame_some hf
    exact ⟨hw, hh⟩
  · intro s f hf
    obtain ⟨-, hw, hh, -⟩ := create_rgb_frame_some hf
    exact ⟨hw, hh⟩
  · intro s1 s2 hatt hsec hw hh
    have hzd : (s1.buffer.width = 0 ∨ s1.buffer.height = 0) ↔
        (s2.buffer.width = 0 ∨ s2.buffer.height = 0) := by
      rw [hw, hh]
    refine ⟨?_, ?_, ?_, ?_⟩
    · rw [create_yuv_frame_eq, create_yuv_frame_eq, hatt]
      by_cases hg : frameStatusGate s2.attachments = true
      · rw [if_pos hg, if_pos hg]
        by_cases h1 : s1.buffer.width = 0 ∨ s1.buffer.height = 0
        · rw [if_pos h1, if_pos (hzd.mp h1)]
        · rw [if_neg h1, if_neg (fun h => h1 (hzd.mpr h))]
          simp [hw, hh]
      · rw [if_neg hg, if_neg hg]
    · rw [create_bgr_frame_eq, create_bgr_frame_eq]
      by_cases h1 : s1.buffer.width = 0 ∨ s1.buffer.height = 0
      · rw [if_pos h1, if_pos (hzd.mp h1)]
      · rw [if_neg h1, if_neg (fun h => h1 (hzd.mpr h))]
        simp [hw, hh]
    · rw [create_bgra_frame_eq, create_bgra_frame_eq]
      by_cases h1 : s1.buffer.width = 0 ∨ s1.buffer.height = 0
      · rw [if_pos h1, if_pos (hzd.mp h1)]
      · rw [if_neg h1, if_neg (fun h => h1 (hzd.mpr h))]
        simp [hw, hh]
    · rw [create_rgb_frame_eq, create_rgb_frame_eq]
      by_cases h1 : s1.buffer.width = 0 ∨ s1.buffer.height = 0
      · rw [if_pos h1, if_pos (hzd.mp h1)]
      · rw [if_neg h1, if_neg (fun h => h1 (hzd.mpr h))]
        simp [hw, hh]

/-- A 1×1 pixel buffer like `pbUnit` but with whole-buffer stride 16 and
plane strides 8: same logical bounds, different strides. -/
def pbUnitWideRow : PixelBuffer := ⟨1, 1, 16, fun o => o % 256, fun _ => 8, fun p o => p + o⟩

/-- Witness for C9: the unit sample and a sample over the same bounds with
different strides produce identical `width`/`height` fields in all four
formats. -/
theorem C9_dims_from_bounds_witness :
    (create_yuv_frame sUnit).1.map (fun f => (f.width, f.height)) =
      (create_yuv_frame ⟨some attComplete, FVal.finite 0, pbUnitWideRow⟩).1.map
        (fun f => (f.width, f.height)) ∧
    (create_bgr_frame sUnit).1.map (fun f => (f.width, f.height)) =
      (create_bgr_frame ⟨some attComplete, FVal.finite 0, pbUnitWideRow⟩).1.map
        (fun f => (f.width, f.height)) ∧
    (create_bgra_frame sUnit).1.map (fun f => (f.width, f.height)) =
      (create_bgra_frame ⟨some attComplete, FVal.finite 0, pbUnitWideRow⟩).1.map
        (fun f => (f.width, f.height)) ∧
    (create_rgb_frame sUnit).1.map (fun f => (f.width, f.height)) =
      (create_rgb_frame ⟨some attComplete, FVal.finite 0, pbUnitWideRow⟩).1.map
        (fun f => (f.width, f.height)) :=
  C9_dims_from_bounds.2.2.2.2 sUnit ⟨some attComplete, FVal.finite 0, pbUnitWideRow⟩
    rfl rfl rfl rfl

end Scap
